import Mathlib

/-!
Verification development for `create_statistics.py`, a fleet-utilization
report generator.  The Python source is shallowly embedded below.

Modelling conventions:

* A timestamp (`datetime` with second precision in the source) is a `Nat`
  counting seconds since an epoch whose day 0 is a Monday.  `datetime.date()`
  becomes the day number `t / 86400`, `datetime.weekday()` becomes
  `t / 86400 % 7` (0 = Monday .. 6 = Sunday), and `strftime("%A")` becomes
  `dayName` of the day number.  Adding `timedelta(days=1)` is `+ 86400` on
  timestamps and `+ 1` on day numbers.  Events carry the parsed timestamps
  directly (the source parses its `"Start"`/`"End"` string fields with a
  fixed format on every use; parsing itself is out of scope).
* Python `dict`/`Counter`/`defaultdict` accumulators become either total
  functions with a default value or association lists, as noted per use.
* Loops become folds; `while` loops with a numeric step become structural
  recursion on an explicit fuel that equals the loop's exact iteration
  count, so every definition computes.
* Fallible code (`raise`, `ZeroDivisionError`, subscripting `None`) returns
  `Except`/`Option`.
-/

/-- One input record (a CSV row in the source): aircraft id, airport id,
parsed start/end timestamps, event type, and the `"Tach Total"` usage-hours
field, where the empty string means "absent" (Python falsiness). -/
structure Event where
  aircraft : String
  location : String
  start : Nat
  «end» : Nat
  type : String
  tachTotal : String
deriving DecidableEq, Repr

/-- `datetime.weekday()`: 0 = Monday .. 6 = Sunday (epoch day 0 is a Monday). -/
def pyWeekday (t : Nat) : Nat := t / 86400 % 7

/-- Weekday name of a residue mod 7, used by `strftime("%A")`. -/
def dayNameOfRes (r : Nat) : String :=
  match r with
  | 0 => "Monday"
  | 1 => "Tuesday"
  | 2 => "Wednesday"
  | 3 => "Thursday"
  | 4 => "Friday"
  | 5 => "Saturday"
  | _ => "Sunday"

/-- `strftime("%A")` of a day number. -/
def dayName (d : Nat) : String := dayNameOfRes (d % 7)

/-- The scanning loop of `is_weekend`: `x = start; while x < end: if
x.weekday() in [5, 6]: return True; x += timedelta(days=1); return False`.
The fuel is the loop's exact iteration count `⌈(end - start) / 86400⌉`,
supplied by the wrapper `is_weekend`. -/
def scanWeekendAux : Nat → Nat → Bool
  | 0, _ => false
  | n + 1, x => if pyWeekday x = 5 ∨ pyWeekday x = 6 then true else scanWeekendAux n (x + 86400)

/-- `is_weekend(start, end)` from the source: endpoint check, then the
sub-day fast path, then the more-than-6-days fast path, then the day scan. -/
def is_weekend (start «end» : Nat) : Bool :=
  if pyWeekday start = 5 ∨ pyWeekday start = 6 ∨ pyWeekday «end» = 5 ∨ pyWeekday «end» = 6 then
    true
  else if («end» : Int) - (start : Int) < 86400 then
    false
  else if («end» : Int) - (start : Int) > 6 * 86400 then
    true
  else
    scanWeekendAux ((«end» - start + 86399) / 86400) start

/-- `is_event_maintenance(event)`: the `Type` field equals `"Maintenance"`. -/
def is_event_maintenance (e : Event) : Bool := e.type == "Maintenance"

/-- `gather_aircraft(events)`: distinct aircraft ids in first-seen order. -/
def gather_aircraft (events : List Event) : List String :=
  events.foldl (fun acc e => if e.aircraft ∈ acc then acc else acc ++ [e.aircraft]) []

/-- `gather_locations(events)`: distinct airport ids in first-seen order. -/
def gather_locations (events : List Event) : List String :=
  events.foldl (fun acc e => if e.location ∈ acc then acc else acc ++ [e.location]) []

/-- A processed (non-skipped) event of `gather_metadata`: not maintenance and
with a non-blank `Tach Total` field. -/
def qualifying (e : Event) : Prop := is_event_maintenance e = false ∧ e.tachTotal ≠ ""

instance (e : Event) : Decidable (qualifying e) := by
  unfold qualifying; infer_instance

/-- Result record of `gather_metadata`. -/
structure Metadata where
  start_date : Nat
  end_date : Nat
  length_days : Int
  num_events : Nat
deriving DecidableEq, Repr

/-- One loop iteration of `gather_metadata`: skip maintenance/blank-hours
events, otherwise update the running earliest-start and latest-end events
(strict comparisons, so ties keep the earlier-seen event). -/
def gmStep (s : Option Event × Option Event) (e : Event) : Option Event × Option Event :=
  if is_event_maintenance e || e.tachTotal == "" then s
  else
    (match s.1 with
     | none => some e
     | some f => if e.start < f.start then some e else some f,
     match s.2 with
     | none => some e
     | some l => if l.«end» < e.«end» then some e else some l)

/-- `gather_metadata(event_list)`.  In the source, when no qualifying event
exists `first_event` stays `None` and the subscript `first_event["Start"]`
raises; that failure is `none` here.  `length_days` is `(end-start).days`,
i.e. floor division of the signed second difference by 86400. -/
def gather_metadata (events : List Event) : Option Metadata :=
  match events.foldl gmStep (none, none) with
  | (some f, some l) =>
    some ⟨f.start, l.«end», ((l.«end» : Int) - (f.start : Int)).fdiv 86400, events.length⟩
  | _ => none

/-- `Counter` increment on an association list with insertion-order keys:
bump an existing key's count in place, else append the key with count 1. -/
def bump : List (Int × Nat) → Int → List (Int × Nat)
  | [], k => [(k, 1)]
  | (k', n) :: rest, k => if k' = k then (k', n + 1) :: rest else (k', n) :: bump rest k

/-- Stable insertion by key, the building block of `sortByKey`. -/
def insertByKey (p : Int × Nat) : List (Int × Nat) → List (Int × Nat)
  | [] => [p]
  | q :: rest => if q.1 ≤ p.1 then q :: insertByKey p rest else p :: q :: rest

/-- `sorted(results.items(), key=lambda t: t[0])`: a stable sort of the
counter items ascending by key, modelled as insertion sort (the claims
observe the result only through permutation-invariant functions, and
`sortByKey_perm` below records that it permutes its input). -/
def sortByKey : List (Int × Nat) → List (Int × Nat)
  | [] => []
  | p :: rest => insertByKey p (sortByKey rest)

/-- Ceiling-of-hours bucket of an event:
`int(math.ceil((t_in - t_out).total_seconds() / 3600))`. -/
def bucketHours (e : Event) : Int := (((e.«end» : Int) - (e.start : Int)) + 3599).fdiv 3600

/-- `length_histogram(event_list)`: count non-maintenance events per
ceiling-hour bucket, then sort the counter items ascending by bucket key. -/
def length_histogram (events : List Event) : List (Int × Nat) :=
  sortByKey (events.foldl (fun c e => if is_event_maintenance e then c else bump c (bucketHours e)) [])

/-- Total multiplicity a counter assigns to key `k` (the value stored at `k`;
counters built by `bump` keep each key once, so the sum over the single
matching entry is exactly the stored count, and this observation is
permutation-invariant). -/
def getCount (c : List (Int × Nat)) (k : Int) : Nat :=
  ((c.filter (fun p => p.1 == k)).map Prod.snd).sum

/-- Sum of all counts in a counter. -/
def vsum (c : List (Int × Nat)) : Nat := (c.map Prod.snd).sum

/-- State of the `days_between_usage` scan: recorded gaps (fractional days,
kept exact as rationals) and the previous event per aircraft. -/
structure DBUState where
  deltas : String → List ℚ
  last : String → Option Event

/-- The recorded gap value `abs(new.start - previous.end).total_seconds() /
(60 * 60 * 24)` in days. -/
def gapDays (e prev : Event) : ℚ :=
  ((((e.start : Int) - (prev.«end» : Int)).natAbs : ℚ)) / 86400

/-- One loop iteration of `days_between_usage`.  Note the source's
`continue` on the same-date check fires before the previous-event pointer is
updated, so on a same-date turnover the pointer keeps the older event. -/
def dbuStep (s : DBUState) (e : Event) : DBUState :=
  match s.last e.aircraft with
  | none => { s with last := fun a => if a = e.aircraft then some e else s.last a }
  | some prev =>
    if e.start / 86400 = prev.«end» / 86400 then s
    else
      let s1 :=
        if is_event_maintenance e = false ∧ is_event_maintenance prev = false then
          { s with deltas := fun a => if a = e.aircraft then s.deltas a ++ [gapDays e prev] else s.deltas a }
        else s
      { s1 with last := fun a => if a = e.aircraft then some e else s1.last a }

/-- Initial `days_between_usage` state: empty gap lists, no previous events. -/
def dbuInit : DBUState := ⟨fun _ => [], fun _ => none⟩

/-- `days_between_usage(event_list)`: the per-aircraft recorded gap lists. -/
def days_between_usage (events : List Event) : String → List ℚ :=
  (events.foldl dbuStep dbuInit).deltas

/-- The day-walk of `usage_by_weekday` (and structurally of the scan in
`is_weekend`): `x = start; while x < end: visit x.date(); x += 1 day`,
returning the visited day numbers.  The fuel of `walkDaysAux` is the loop's
exact iteration count `⌈(end - start) / 86400⌉`. -/
def walkDaysAux : Nat → Nat → List Nat
  | 0, _ => []
  | n + 1, x => x / 86400 :: walkDaysAux n (x + 86400)

/-- Day numbers visited by the walk from `start` (inclusive) while `< end`. -/
def walkDays (start «end» : Nat) : List Nat :=
  walkDaysAux ((«end» - start + 86399) / 86400) start

/-- One counter increment of `usage_by_weekday`:
`day_of_week_by_name[aircraft][name] += 1` on the nested
`defaultdict(Counter)`, modelled as a total function with default 0. -/
def bumpUW (m : String → String → Nat) (a nm : String) : String → String → Nat :=
  fun a' d' => if a' = a ∧ d' = nm then m a' d' + 1 else m a' d'

/-- `usage_by_weekday(event_list)`: for each non-maintenance event, bump the
aircraft's counter at the weekday name of every day visited by the walk. -/
def usage_by_weekday (events : List Event) : String → String → Nat :=
  events.foldl
    (fun m e =>
      if is_event_maintenance e then m
      else ((walkDays e.start e.«end»).map dayName).foldl (fun m' nm => bumpUW m' e.aircraft nm) m)
    (fun _ _ => 0)

/-- Write to a Python per-airport date dict modelled as an association list:
replace the value at an existing key in place, else append the new entry. -/
def setA (l : List (Nat × Int)) (k : Nat) (v : Int) : List (Nat × Int) :=
  match l with
  | [] => [(k, v)]
  | (k', v') :: rest => if k' = k then (k, v) :: rest else (k', v') :: setA rest k v

/-- Dict lookup on the association lists written by `setA`. -/
def lookupA (l : List (Nat × Int)) (k : Nat) : Option Int :=
  match l with
  | [] => none
  | (k', v') :: rest => if k' = k then some v' else lookupA rest k

/-- State of the availability sweep: the per-airport
`available_aircraft_by_airport_and_date` storage (a date-keyed dict per
airport), the `current_date` cursor, the per-day `aircraft_seen` list and
the per-day `airport_usage` counter (total function, default 0). -/
structure AvailState where
  storage : String → List (Nat × Int)
  current : Option Nat
  seen : List String
  usage : String → Nat

/-- The gap-initialization loop of the sweep:
`x = current_date; while x < new_date: for airport in airports:
available[airport][x] = aircraft_per_airport; x += 1 day`.  Note `x` starts
at `current_date` itself, not the day after it.  The fuel of the `Aux`
recursion is the loop's exact iteration count `new_date - current_date`. -/
def gapFillAux (airports : List String) (app : Int) :
    Nat → Nat → (String → List (Nat × Int)) → String → List (Nat × Int)
  | 0, _, st => st
  | n + 1, x, st =>
    gapFillAux airports app n (x + 1) (fun a => if a ∈ airports then setA (st a) x app else st a)

/-- Wrapper supplying the exact fuel for the gap-initialization loop. -/
def gapFill (airports : List String) (app : Int) (x d : Nat)
    (st : String → List (Nat × Int)) : String → List (Nat × Int) :=
  gapFillAux airports app (d - x) x st

/-- Initial sweep state: empty storage, no current date, empty accumulators. -/
def availInit : AvailState := ⟨fun _ => [], none, [], fun _ => 0⟩

/-- One loop iteration of `aircraft_available_by_airport_and_weekday` for one
event: on a date change, finalize the completed day
(`available[airport][current_date] = aircraft_per_airport - usage[airport]`
for every airport), run the gap-initialization loop when the new date is
more than one day ahead, and reset the cursor and the per-day accumulators;
then, if the event's aircraft has not been seen today, mark it seen and
increment the usage count of the event's airport. -/
def availStep (app : Int) (airports : List String) (s : AvailState) (e : Event) : AvailState :=
  let d := e.start / 86400
  let s1 :=
    if s.current = some d then s
    else
      let stor :=
        match s.current with
        | none => s.storage
        | some cd =>
          let st1 := fun a => if a ∈ airports then setA (s.storage a) cd (app - (s.usage a : Int)) else s.storage a
          if (d : Int) - (cd : Int) > 1 then gapFill airports app cd d st1 else st1
      { storage := stor, current := some d, seen := [], usage := fun _ => 0 }
  if e.aircraft ∈ s1.seen then s1
  else { s1 with seen := s1.seen ++ [e.aircraft],
                 usage := fun a => if a = e.location then s1.usage a + 1 else s1.usage a }

/-- The full event sweep of `aircraft_available_by_airport_and_weekday`. -/
def availSweep (app : Int) (airports : List String) (events : List Event) : AvailState :=
  events.foldl (availStep app airports) availInit

/-- Post-processing of the sweep: group each airport's recorded per-date
availability values by weekday name and take the arithmetic mean (means of
integers are modelled exactly as rationals; a pair absent from the Python
result dicts is `none`). -/
def availPost (airports : List String) (s : AvailState) (airport dow : String) : Option ℚ :=
  if airport ∈ airports then
    match (s.storage airport).filter (fun p => dayName p.1 == dow) with
    | [] => none
    | entries => some (((entries.map (fun p => (p.2 : ℚ))).sum) / (entries.length : ℚ))
  else none

/-- The two failure modes of `aircraft_available_by_airport_and_weekday`:
the `ZeroDivisionError` raised by `divmod(len(aircraft), 0)` and the
`Exception("Uneven aircraft distribution!")` raised on a nonzero remainder. -/
inductive AvailError where
  | divisionByZero
  | unevenDistribution
deriving DecidableEq, Repr

/-- `aircraft_available_by_airport_and_weekday(event_list, aircraft,
airports)`: `divmod` (failing on zero airports), the remainder check, then
the sweep and the weekday-mean post-processing. -/
def aircraft_available_by_airport_and_weekday (events : List Event)
    (aircraft airports : List String) : Except AvailError (String → String → Option ℚ) :=
  if airports.length = 0 then .error .divisionByZero
  else if aircraft.length % airports.length ≠ 0 then .error .unevenDistribution
  else .ok (availPost airports (availSweep ((aircraft.length / airports.length : Nat) : Int) airports events))

/-- Modelled from the spec (for comparison with the code, claim C1): the
number of distinct aircraft having at least one event at `airport` on day
`day` — the count the spec says each airport's daily usage should be. -/
def distinctAircraftSeenAt (events : List Event) (airport : String) (day : Nat) : Nat :=
  (((events.filter (fun e => e.location == airport && e.start / 86400 == day)).map Event.aircraft).dedup).length

/-! ## Helper lemmas -/

/-- The scan loop returns true as soon as some visited point is a weekend day. -/
theorem scanWeekendAux_hits : ∀ (n x k : Nat), k < n →
    (pyWeekday (x + k * 86400) = 5 ∨ pyWeekday (x + k * 86400) = 6) →
    scanWeekendAux n x = true := by
  intro n
  induction n with
  | zero => intro x k hk _; omega
  | succ n ih =>
    intro x k hk hw
    unfold scanWeekendAux
    by_cases h : pyWeekday x = 5 ∨ pyWeekday x = 6
    · rw [if_pos h]
    · rw [if_neg h]
      cases k with
      | zero =>
        exfalso
        simp only [Nat.zero_mul, Nat.add_zero] at hw
        exact h hw
      | succ k =>
        apply ih (x + 86400) k (by omega)
        have harr : x + 86400 + k * 86400 = x + (k + 1) * 86400 := by ring
        rw [harr]
        exact hw

/-! ## C7 -/

/-- C7: `is_weekend` returns true on every interval spanning at least six
days (in `Nat`, `6 * 86400 ≤ e - s` also forces `s ≤ e`), and returns false
on every zero-length interval whose single point falls on a Tuesday. -/
theorem C7_is_weekend_spec (s e : Nat) :
    (6 * 86400 ≤ e - s → is_weekend s e = true) ∧
    (pyWeekday s = 1 → is_weekend s s = false) := by
  constructor
  · intro h
    have hse : s + 6 * 86400 ≤ e := by omega
    unfold is_weekend
    by_cases hw : pyWeekday s = 5 ∨ pyWeekday s = 6 ∨ pyWeekday e = 5 ∨ pyWeekday e = 6
    · rw [if_pos hw]
    · rw [if_neg hw]
      have h1 : ¬ ((e : Int) - (s : Int) < 86400) := by
        have : (86400 : Int) ≤ (e : Int) - (s : Int) := by omega
        omega
      rw [if_neg h1]
      by_cases h2 : (e : Int) - (s : Int) > 6 * 86400
      · rw [if_pos h2]
      · rw [if_neg h2]
        have he : e = s + 6 * 86400 := by
          have : (e : Int) - (s : Int) ≤ 6 * 86400 := by omega
          have he' : (e : Int) = (s : Int) + 6 * 86400 := by push_cast at this ⊢; omega
          exact_mod_cast he'
        subst he
        have hfuel : (s + 6 * 86400 - s + 86399) / 86400 = 6 := by omega
        rw [hfuel]
        have hwds : pyWeekday s ≠ 5 ∧ pyWeekday s ≠ 6 := by tauto
        set w := pyWeekday s with hwdef
        have hw7 : w < 7 := Nat.mod_lt _ (by norm_num)
        apply scanWeekendAux_hits 6 s (5 - w) (by omega)
        left
        have hdiv : (s + (5 - w) * 86400) / 86400 = s / 86400 + (5 - w) :=
          Nat.add_mul_div_right s (5 - w) (by norm_num)
        unfold pyWeekday at hwdef ⊢
        rw [hdiv]
        omega
  · intro h
    unfold is_weekend
    have hne : ¬ (pyWeekday s = 5 ∨ pyWeekday s = 6 ∨ pyWeekday s = 5 ∨ pyWeekday s = 6) := by
      rw [h]; norm_num
    rw [if_neg hne, if_pos (by omega : ((s : Int) - (s : Int)) < 86400)]

/-- Witness for C7: a six-day span starting on the epoch Monday is weekend,
and the zero-length interval at day 1 (a Tuesday) is not. -/
theorem C7_witness : is_weekend 0 (6 * 86400) = true ∧ is_weekend 86400 86400 = false :=
  ⟨(C7_is_weekend_spec 0 (6 * 86400)).1 (by norm_num),
   (C7_is_weekend_spec 86400 86400).2 (by decide)⟩

/-! ## C10 -/

/-- C10: with an empty airport list (as produced by `gather_locations` on an
empty event list) the availability function fails with the division-by-zero
error of the unguarded `divmod`, never with the distribution-imbalance
error. -/
theorem C10_empty_airports_division_by_zero :
    gather_locations ([] : List Event) = [] ∧ gather_aircraft ([] : List Event) = [] ∧
    ∀ (events : List Event) (aircraft : List String),
      aircraft_available_by_airport_and_weekday events aircraft [] = .error .divisionByZero ∧
      aircraft_available_by_airport_and_weekday events aircraft [] ≠ .error .unevenDistribution := by
  refine ⟨rfl, rfl, fun events aircraft => ⟨rfl, fun h => ?_⟩⟩
  have h' : Except.error (ε := AvailError) (α := String → String → Option ℚ) .divisionByZero
      = .error .unevenDistribution := h
  exact AvailError.noConfusion (Except.error.inj h')

/-! ## C6 -/

/-- C6: with a nonempty airport list (the empty case is the separate
division-by-zero failure of C10), the availability function fails with the
distribution-imbalance error exactly when the aircraft count is not evenly
divisible by the airport count, and on divisible inputs it proceeds with
`aircraft_per_airport` equal to the exact quotient. -/
theorem C6_distribution_check (events : List Event) (aircraft airports : List String)
    (h : airports ≠ []) :
    (aircraft_available_by_airport_and_weekday events aircraft airports = .error .unevenDistribution
      ↔ ¬ (airports.length ∣ aircraft.length)) ∧
    (airports.length ∣ aircraft.length →
      aircraft_available_by_airport_and_weekday events aircraft airports =
        .ok (availPost airports
          (availSweep ((aircraft.length / airports.length : Nat) : Int) airports events))) := by
  have hlen : airports.length ≠ 0 := by
    simpa [List.length_eq_zero] using h
  have hpos : 0 < airports.length := Nat.pos_of_ne_zero hlen
  unfold aircraft_available_by_airport_and_weekday
  rw [if_neg hlen]
  have hiff : airports.length ∣ aircraft.length ↔ aircraft.length % airports.length = 0 :=
    Nat.dvd_iff_mod_eq_zero
  constructor
  · constructor
    · intro heq
      by_cases hmod : aircraft.length % airports.length ≠ 0
      · exact fun hd => hmod (hiff.mp hd)
      · rw [if_neg hmod] at heq
        exact Except.noConfusion heq
    · intro hnd
      have hmod : aircraft.length % airports.length ≠ 0 := fun hz => hnd (hiff.mpr hz)
      rw [if_pos hmod]
  · intro hd
    have hmod : ¬ (aircraft.length % airports.length ≠ 0) := by
      rw [hiff] at hd; exact fun hne => hne hd
    rw [if_neg hmod]

/-- Witness for C6: four aircraft over three airports fail with the
distribution error. -/
theorem C6_witness :
    aircraft_available_by_airport_and_weekday [] ["a", "b", "c", "d"] ["X", "Y", "Z"]
      = .error .unevenDistribution :=
  (C6_distribution_check [] ["a", "b", "c", "d"] ["X", "Y", "Z"] (by decide)).1.mpr (by decide)

/-- Inserting by key permutes consing. -/
theorem insertByKey_perm (p : Int × Nat) : ∀ (l : List (Int × Nat)), (insertByKey p l).Perm (p :: l) := by
  intro l
  induction l with
  | nil => exact List.Perm.refl _
  | cons q rest ih =>
    unfold insertByKey
    by_cases h : q.1 ≤ p.1
    · rw [if_pos h]
      exact (ih.cons q).trans (List.Perm.swap p q rest)
    · rw [if_neg h]

/-- The counter sort is a permutation of the counter items. -/
theorem sortByKey_perm : ∀ (l : List (Int × Nat)), (sortByKey l).Perm l := by
  intro l
  induction l with
  | nil => exact List.Perm.refl _
  | cons p rest ih =>
    exact (insertByKey_perm p (sortByKey rest)).trans (ih.cons p)

/-- `getCount` only sees the multiset of counter items. -/
theorem getCount_perm {l l' : List (Int × Nat)} (h : l.Perm l') (k : Int) :
    getCount l k = getCount l' k := by
  unfold getCount
  exact ((h.filter (fun p => p.1 == k)).map Prod.snd).sum_eq

/-- `vsum` only sees the multiset of counter items. -/
theorem vsum_perm {l l' : List (Int × Nat)} (h : l.Perm l') : vsum l = vsum l' :=
  (h.map Prod.snd).sum_eq

/-- Unfolding `getCount` over a cons cell. -/
theorem getCount_cons (k' : Int) (n : Nat) (rest : List (Int × Nat)) (j : Int) :
    getCount ((k', n) :: rest) j = (if k' = j then n else 0) + getCount rest j := by
  unfold getCount
  by_cases h : k' = j
  · simp [h]
  · simp [h]

/-- Bumping a counter at `k` raises the count of `k` by one and no other. -/
theorem bump_getCount (c : List (Int × Nat)) (k j : Int) :
    getCount (bump c k) j = getCount c j + if k = j then 1 else 0 := by
  induction c with
  | nil =>
    unfold bump
    rw [getCount_cons]
    simp only [getCount, List.filter_nil, List.map_nil, List.sum_nil]
    split_ifs <;> omega
  | cons p rest ih =>
    obtain ⟨k', n⟩ := p
    unfold bump
    by_cases h : k' = k
    · rw [if_pos h, getCount_cons, getCount_cons]
      subst h
      split_ifs <;> omega
    · rw [if_neg h, getCount_cons, getCount_cons, ih]
      omega

/-- Bumping a counter raises the total count by one. -/
theorem bump_vsum (c : List (Int × Nat)) (k : Int) : vsum (bump c k) = vsum c + 1 := by
  induction c with
  | nil => rfl
  | cons p rest ih =>
    obtain ⟨k', n⟩ := p
    unfold bump
    by_cases h : k' = k
    · rw [if_pos h]
      simp [vsum]
      omega
    · rw [if_neg h]
      simp only [vsum, List.map_cons, List.sum_cons] at ih ⊢
      omega

/-- The raw histogram fold adds one count per non-maintenance event. -/
theorem hist_fold_vsum : ∀ (events : List Event) (c : List (Int × Nat)),
    vsum (events.foldl (fun c e => if is_event_maintenance e then c else bump c (bucketHours e)) c)
      = vsum c + (events.filter (fun e => !is_event_maintenance e)).length := by
  intro events
  induction events with
  | nil => intro c; simp
  | cons e es ih =>
    intro c
    rw [List.foldl_cons]
    by_cases h : is_event_maintenance e
    · rw [if_pos h]
      rw [ih c]
      simp [h]
    · rw [if_neg h]
      rw [ih (bump c (bucketHours e)), bump_vsum]
      simp [h]
      omega

/-- The raw histogram fold counts, at each bucket, the non-maintenance
events whose ceiling-hour duration is that bucket. -/
theorem hist_fold_getCount : ∀ (events : List Event) (c : List (Int × Nat)) (b : Int),
    getCount (events.foldl (fun c e => if is_event_maintenance e then c else bump c (bucketHours e)) c) b
      = getCount c b + (events.filter (fun e => !is_event_maintenance e && bucketHours e == b)).length := by
  intro events
  induction events with
  | nil => intro c b; simp
  | cons e es ih =>
    intro c b
    rw [List.foldl_cons]
    by_cases h : is_event_maintenance e
    · rw [if_pos h]
      rw [ih c b]
      simp [h]
    · rw [if_neg h]
      rw [ih (bump c (bucketHours e)) b, bump_getCount]
      by_cases hb : bucketHours e = b
      · simp [h, hb]
        omega
      · simp [h, hb]

/-! ## C8 -/

/-- C8: the histogram's counts sum to the number of non-maintenance events;
each bucket holds exactly the non-maintenance events whose duration in
hours rounded up is that bucket; and any event of duration 5400 seconds (a
90-minute reservation) has bucket 2. -/
theorem C8_length_histogram_spec (events : List Event) :
    vsum (length_histogram events) = (events.filter (fun e => !is_event_maintenance e)).length ∧
    (∀ b : Int, getCount (length_histogram events) b
      = (events.filter (fun e => !is_event_maintenance e && bucketHours e == b)).length) ∧
    (∀ e : Event, (e.«end» : Int) - (e.start : Int) = 5400 → bucketHours e = 2) := by
  refine ⟨?_, fun b => ?_, fun e he => ?_⟩
  · unfold length_histogram
    rw [vsum_perm (sortByKey_perm _), hist_fold_vsum]
    simp [vsum]
  · unfold length_histogram
    rw [getCount_perm (sortByKey_perm _) b, hist_fold_getCount]
    simp [getCount]
  · unfold bucketHours
    rw [he]
    decide

/-- Witness for C8: a single 90-minute reservation gives a histogram with
total count 1, all of it in bucket 2. -/
theorem C8_witness :
    vsum (length_histogram [⟨"A", "L", 0, 5400, "Reservation", ""⟩]) = 1 ∧
    getCount (length_histogram [⟨"A", "L", 0, 5400, "Reservation", ""⟩]) 2 = 1 ∧
    bucketHours (⟨"A", "L", 0, 5400, "Reservation", ""⟩ : Event) = 2 := by
  refine ⟨?_, ?_, (C8_length_histogram_spec []).2.2 ⟨"A", "L", 0, 5400, "Reservation", ""⟩ (by decide)⟩
  · rw [(C8_length_histogram_spec [⟨"A", "L", 0, 5400, "Reservation", ""⟩]).1]
    decide
  · rw [(C8_length_histogram_spec [⟨"A", "L", 0, 5400, "Reservation", ""⟩]).2.1 2]
    decide

/-! ## C4 -/

/-- First event of the C4 counterexample: ends during day 5. -/
def c4e1 : Event := ⟨"A", "X", 0, 5 * 86400 + 100, "Reservation", "1.0"⟩

/-- Second event of the C4 counterexample: starts later on day 5, the same
date its predecessor ends. -/
def c4e2 : Event := ⟨"A", "X", 5 * 86400 + 200, 5 * 86400 + 300, "Reservation", "1.0"⟩

/-- Counterexample to C4: after processing `c4e2`, whose aircraft already
has recorded previous event `c4e1` and whose start date equals `c4e1`'s end
date, the stored previous event is still `c4e1`, not the just-processed
`c4e2` — the source's `continue` fires before the pointer update. -/
theorem C4_counterexample :
    (([c4e1, c4e2].foldl dbuStep dbuInit).last "A") = some c4e1 ∧ c4e1 ≠ c4e2 := by
  constructor
  · rfl
  · decide

/-- C4 as amended: when an event's aircraft already has a recorded previous
event, the pointer advances to the current event exactly when the new start
date differs from the previous end date (in particular also when either
event is maintenance); on a same-date turnover the pointer keeps the old
event. -/
theorem C4_amended (s : DBUState) (e prev : Event) (h : s.last e.aircraft = some prev) :
    (e.start / 86400 ≠ prev.«end» / 86400 → (dbuStep s e).last e.aircraft = some e) ∧
    (e.start / 86400 = prev.«end» / 86400 → (dbuStep s e).last e.aircraft = some prev) := by
  have hstep : dbuStep s e =
      (if e.start / 86400 = prev.«end» / 86400 then s
       else
         let s1 :=
           if is_event_maintenance e = false ∧ is_event_maintenance prev = false then
             { s with deltas := fun a => if a = e.aircraft then s.deltas a ++ [gapDays e prev] else s.deltas a }
           else s
         { s1 with last := fun a => if a = e.aircraft then some e else s1.last a }) := by
    unfold dbuStep
    rw [h]
  rw [hstep]
  constructor
  · intro hne
    rw [if_neg hne]
    by_cases hm : is_event_maintenance e = false ∧ is_event_maintenance prev = false
    · rw [if_pos hm]
      simp
    · rw [if_neg hm]
      simp
  · intro heq
    rw [if_pos heq]
    exact h

/-- Witness for C4's amended theorem: a second event on a later date does
advance the pointer. -/
theorem C4_witness :
    (dbuStep ([c4e1].foldl dbuStep dbuInit) ⟨"A", "X", 7 * 86400, 7 * 86400 + 50, "Reservation", "1.0"⟩).last "A"
      = some ⟨"A", "X", 7 * 86400, 7 * 86400 + 50, "Reservation", "1.0"⟩ :=
  (C4_amended ([c4e1].foldl dbuStep dbuInit)
      ⟨"A", "X", 7 * 86400, 7 * 86400 + 50, "Reservation", "1.0"⟩ c4e1 rfl).1 (by decide)

/-- A zero-length walk visits nothing. -/
theorem walkDays_zero (s : Nat) : walkDays s s = [] := by
  unfold walkDays
  have h : (s - s + 86399) / 86400 = 0 := by omega
  rw [h]
  rfl

/-- A walk over at most one day (with something to visit) visits exactly the
start day. -/
theorem walkDays_subday (s e : Nat) (h1 : s < e) (h2 : e ≤ s + 86400) :
    walkDays s e = [s / 86400] := by
  unfold walkDays
  have h : (e - s + 86399) / 86400 = 1 := by omega
  rw [h]
  rfl

/-- A walk over exactly three days visits the three consecutive start days. -/
theorem walkDays_three (s : Nat) :
    walkDays s (s + 3 * 86400) = [s / 86400, s / 86400 + 1, s / 86400 + 2] := by
  unfold walkDays
  have h : (s + 3 * 86400 - s + 86399) / 86400 = 3 := by omega
  rw [h]
  show [s / 86400, (s + 86400) / 86400, (s + 86400 + 86400) / 86400]
    = [s / 86400, s / 86400 + 1, s / 86400 + 2]
  rw [Nat.add_div_right s (by norm_num), Nat.add_div_right (s + 86400) (by norm_num),
    Nat.add_div_right s (by norm_num)]

/-- Weekday names of distinct residues are distinct. -/
theorem dayNameOfRes_inj (i j : Nat) (hi : i < 7) (hj : j < 7) (hne : i ≠ j) :
    dayNameOfRes i ≠ dayNameOfRes j := by
  interval_cases i <;> interval_cases j <;> revert hne <;> decide

/-- The weekday names of a day and of one or two days later are distinct. -/
theorem dayName_near_ne (d : Nat) :
    dayName d ≠ dayName (d + 1) ∧ dayName d ≠ dayName (d + 2) ∧ dayName (d + 1) ≠ dayName (d + 2) := by
  unfold dayName
  refine ⟨dayNameOfRes_inj _ _ ?_ ?_ ?_, dayNameOfRes_inj _ _ ?_ ?_ ?_, dayNameOfRes_inj _ _ ?_ ?_ ?_⟩ <;> omega

/-! ## C5 -/

/-- The sub-day reservation of the C5 counterexample: 10:00 to 11:00 on the
epoch Monday. -/
def c5ev : Event := ⟨"A", "L", 36000, 39600, "Reservation", ""⟩

/-- Counterexample to C5: a non-maintenance event of sub-day length whose
half-open interval stays within one calendar day (so it contains no day
boundary) nevertheless increments its aircraft's counter for the start
day's weekday once — the walk visits the start point itself. -/
theorem C5_counterexample :
    is_event_maintenance c5ev = false ∧ c5ev.start < c5ev.«end» ∧
    c5ev.«end» - c5ev.start < 86400 ∧ c5ev.start / 86400 = c5ev.«end» / 86400 ∧
    usage_by_weekday [c5ev] c5ev.aircraft (dayName (c5ev.start / 86400)) = 1 := by
  refine ⟨rfl, by decide, by decide, rfl, ?_⟩
  show (bumpUW (fun _ _ => 0) "A" (dayName 0)) "A" (dayName 0) = 1
  simp [bumpUW]

/-- C5 as amended: only zero-length events contribute nothing; a
non-maintenance event with `start < end` of at most one day contributes
exactly one increment, to its start day's weekday, even when `[start, end)`
contains no day boundary; and an event spanning exactly three days
(`end = start + 3 days`) contributes exactly three increments, one to each
of the three distinct weekday names of the days it touches. -/
theorem C5_amended (e : Event) (hm : is_event_maintenance e = false) :
    (e.«end» = e.start → ∀ a d, usage_by_weekday [e] a d = 0) ∧
    (e.start < e.«end» → e.«end» ≤ e.start + 86400 →
      usage_by_weekday [e] e.aircraft (dayName (e.start / 86400)) = 1 ∧
      (∀ d, d ≠ dayName (e.start / 86400) → usage_by_weekday [e] e.aircraft d = 0)) ∧
    (e.«end» = e.start + 3 * 86400 →
      usage_by_weekday [e] e.aircraft (dayName (e.start / 86400)) = 1 ∧
      usage_by_weekday [e] e.aircraft (dayName (e.start / 86400 + 1)) = 1 ∧
      usage_by_weekday [e] e.aircraft (dayName (e.start / 86400 + 2)) = 1 ∧
      (∀ d, d ≠ dayName (e.start / 86400) → d ≠ dayName (e.start / 86400 + 1) →
        d ≠ dayName (e.start / 86400 + 2) → usage_by_weekday [e] e.aircraft d = 0) ∧
      dayName (e.start / 86400) ≠ dayName (e.start / 86400 + 1) ∧
      dayName (e.start / 86400) ≠ dayName (e.start / 86400 + 2) ∧
      dayName (e.start / 86400 + 1) ≠ dayName (e.start / 86400 + 2)) := by
  have husage : usage_by_weekday [e] =
      ((walkDays e.start e.«end»).map dayName).foldl (fun m' nm => bumpUW m' e.aircraft nm)
        (fun _ _ => 0) := by
    unfold usage_by_weekday
    rw [List.foldl_cons, if_neg (by rw [hm]; exact Bool.false_ne_true), List.foldl_nil]
  refine ⟨?_, ?_, ?_⟩
  · intro hz a d
    rw [husage, hz, walkDays_zero]
    rfl
  · intro h1 h2
    rw [husage, walkDays_subday e.start e.«end» h1 h2]
    constructor
    · simp [bumpUW]
    · intro d hd
      simp [bumpUW, hd]
  · intro h3
    rw [husage, h3, walkDays_three]
    obtain ⟨hn1, hn2, hn3⟩ := dayName_near_ne (e.start / 86400)
    refine ⟨?_, ?_, ?_, ?_, hn1, hn2, hn3⟩
    · simp [bumpUW, hn1, hn2, hn1.symm, hn2.symm]
    · simp [bumpUW, hn1.symm, hn3]
    · simp [bumpUW, hn3.symm, hn2.symm]
    · intro d hd1 hd2 hd3
      simp [bumpUW, hd1, hd2, hd3]

/-- Witness for C5's amended theorem: a reservation covering exactly the
epoch Monday, Tuesday and Wednesday gets one increment on each of those
weekday names and none elsewhere. -/
theorem C5_witness :
    usage_by_weekday [⟨"A", "L", 0, 3 * 86400, "Reservation", ""⟩] "A" "Monday" = 1 ∧
    usage_by_weekday [⟨"A", "L", 0, 3 * 86400, "Reservation", ""⟩] "A" "Tuesday" = 1 ∧
    usage_by_weekday [⟨"A", "L", 0, 3 * 86400, "Reservation", ""⟩] "A" "Wednesday" = 1 ∧
    usage_by_weekday [⟨"A", "L", 0, 3 * 86400, "Reservation", ""⟩] "A" "Sunday" = 0 := by
  have h := (C5_amended ⟨"A", "L", 0, 3 * 86400, "Reservation", ""⟩ rfl).2.2 (by decide)
  exact ⟨h.1, h.2.1, h.2.2.1, h.2.2.2.1 "Sunday" (by decide) (by decide) (by decide)⟩

/-- A non-qualifying event leaves the metadata scan state unchanged. -/
theorem gmStep_skip (s : Option Event × Option Event) (e : Event) (h : ¬ qualifying e) :
    gmStep s e = s := by
  unfold gmStep
  have hc : (is_event_maintenance e || e.tachTotal == "") = true := by
    unfold qualifying at h
    push_neg at h
    rcases Bool.eq_false_or_eq_true (is_event_maintenance e) with hm | hm
    · simp [hm]
    · have ht := h hm
      simp [hm, ht]
  rw [if_pos hc]

/-- A qualifying event updates both running extremal events. -/
theorem gmStep_go (f l : Event) (e : Event) (h : qualifying e) :
    gmStep (some f, some l) e =
      (some (if e.start < f.start then e else f), some (if l.«end» < e.«end» then e else l)) := by
  unfold gmStep
  rw [if_neg (by simp [h.1, h.2])]
  by_cases hc1 : e.start < f.start <;> by_cases hc2 : l.«end» < e.«end» <;> simp [hc1, hc2]

/-- The first qualifying event seeds both running extremal events. -/
theorem gmStep_seed (e : Event) (h : qualifying e) :
    gmStep (none, none) e = (some e, some e) := by
  unfold gmStep
  rw [if_neg (by simp [h.1, h.2])]

/-- Invariant of the metadata scan once both accumulators are populated:
the tracked events only move toward earlier starts and later ends, stay
drawn from the seed or the qualifying scanned events, and bound every
qualifying scanned event. -/
theorem gmLoop_some : ∀ (events : List Event) (f l : Event),
    ∃ f' l', events.foldl gmStep (some f, some l) = (some f', some l') ∧
      (f' = f ∨ (f' ∈ events ∧ qualifying f')) ∧ f'.start ≤ f.start ∧
      (∀ e ∈ events, qualifying e → f'.start ≤ e.start) ∧
      (l' = l ∨ (l' ∈ events ∧ qualifying l')) ∧ l.«end» ≤ l'.«end» ∧
      (∀ e ∈ events, qualifying e → e.«end» ≤ l'.«end») := by
  intro events
  induction events with
  | nil =>
    intro f l
    exact ⟨f, l, rfl, Or.inl rfl, le_refl _, by simp, Or.inl rfl, le_refl _, by simp⟩
  | cons e es ih =>
    intro f l
    by_cases hq : qualifying e
    · rw [List.foldl_cons, gmStep_go f l e hq]
      obtain ⟨f', l', heq, hfm, hfle, hfall, hlm, hlle, hlall⟩ :=
        ih (if e.start < f.start then e else f) (if l.«end» < e.«end» then e else l)
      have hf2cases : (if e.start < f.start then e else f) = e ∨ (if e.start < f.start then e else f) = f := by
        split_ifs <;> simp
      have hf2le : (if e.start < f.start then e else f).start ≤ f.start := by
        split_ifs with hc
        · exact le_of_lt hc
        · exact le_refl _
      have hf2lee : (if e.start < f.start then e else f).start ≤ e.start := by
        split_ifs with hc
        · exact le_refl _
        · omega
      have hl2cases : (if l.«end» < e.«end» then e else l) = e ∨ (if l.«end» < e.«end» then e else l) = l := by
        split_ifs <;> simp
      have hl2le : l.«end» ≤ (if l.«end» < e.«end» then e else l).«end» := by
        split_ifs with hc
        · exact le_of_lt hc
        · exact le_refl _
      have hl2lee : e.«end» ≤ (if l.«end» < e.«end» then e else l).«end» := by
        split_ifs with hc
        · exact le_refl _
        · omega
      refine ⟨f', l', heq, ?_, le_trans hfle hf2le, ?_, ?_, le_trans hl2le hlle, ?_⟩
      · rcases hfm with h1 | h1
        · rcases hf2cases with h2 | h2
          · exact Or.inr ⟨by rw [h1, h2]; exact List.mem_cons_self e es, by rw [h1, h2]; exact hq⟩
          · exact Or.inl (by rw [h1, h2])
        · exact Or.inr ⟨List.mem_cons_of_mem e h1.1, h1.2⟩
      · intro e' he' hq'
        rcases List.mem_cons.mp he' with rfl | hmem
        · exact le_trans hfle hf2lee
        · exact hfall e' hmem hq'
      · rcases hlm with h1 | h1
        · rcases hl2cases with h2 | h2
          · exact Or.inr ⟨by rw [h1, h2]; exact List.mem_cons_self e es, by rw [h1, h2]; exact hq⟩
          · exact Or.inl (by rw [h1, h2])
        · exact Or.inr ⟨List.mem_cons_of_mem e h1.1, h1.2⟩
      · intro e' he' hq'
        rcases List.mem_cons.mp he' with rfl | hmem
        · exact le_trans hl2lee hlle
        · exact hlall e' hmem hq'
    · rw [List.foldl_cons, gmStep_skip _ e hq]
      obtain ⟨f', l', heq, hfm, hfle, hfall, hlm, hlle, hlall⟩ := ih f l
      refine ⟨f', l', heq, ?_, hfle, ?_, ?_, hlle, ?_⟩
      · rcases hfm with h1 | h1
        · exact Or.inl h1
        · exact Or.inr ⟨List.mem_cons_of_mem e h1.1, h1.2⟩
      · intro e' he' hq'
        rcases List.mem_cons.mp he' with rfl | hmem
        · exact absurd hq' hq
        · exact hfall e' hmem hq'
      · rcases hlm with h1 | h1
        · exact Or.inl h1
        · exact Or.inr ⟨List.mem_cons_of_mem e h1.1, h1.2⟩
      · intro e' he' hq'
        rcases List.mem_cons.mp he' with rfl | hmem
        · exact absurd hq' hq
        · exact hlall e' hmem hq'

/-- With no qualifying event, the metadata scan never populates its state. -/
theorem gmLoop_none : ∀ (events : List Event), (∀ e ∈ events, ¬ qualifying e) →
    events.foldl gmStep (none, none) = (none, none) := by
  intro events
  induction events with
  | nil => intro _; rfl
  | cons e es ih =>
    intro h
    rw [List.foldl_cons, gmStep_skip _ e (h e (List.mem_cons_self e es))]
    exact ih (fun e' he' => h e' (List.mem_cons_of_mem e he'))

/-- With at least one qualifying event, the metadata scan ends with the
earliest-start and latest-end qualifying events. -/
theorem gmLoop_char : ∀ (events : List Event), (∃ e ∈ events, qualifying e) →
    ∃ f' l', events.foldl gmStep (none, none) = (some f', some l') ∧
      f' ∈ events ∧ qualifying f' ∧ (∀ e ∈ events, qualifying e → f'.start ≤ e.start) ∧
      l' ∈ events ∧ qualifying l' ∧ (∀ e ∈ events, qualifying e → e.«end» ≤ l'.«end») := by
  intro events
  induction events with
  | nil =>
    rintro ⟨e, he, -⟩
    exact absurd he (List.not_mem_nil e)
  | cons e es ih =>
    intro hex
    by_cases hq : qualifying e
    · rw [List.foldl_cons, gmStep_seed e hq]
      obtain ⟨f', l', heq, hfm, hfle, hfall, hlm, hlle, hlall⟩ := gmLoop_some es e e
      refine ⟨f', l', heq, ?_, ?_, ?_, ?_, ?_, ?_⟩
      · rcases hfm with h1 | h1
        · rw [h1]; exact List.mem_cons_self e es
        · exact List.mem_cons_of_mem e h1.1
      · rcases hfm with h1 | h1
        · rw [h1]; exact hq
        · exact h1.2
      · intro e' he' hq'
        rcases List.mem_cons.mp he' with rfl | hmem
        · exact hfle
        · exact hfall e' hmem hq'
      · rcases hlm with h1 | h1
        · rw [h1]; exact List.mem_cons_self e es
        · exact List.mem_cons_of_mem e h1.1
      · rcases hlm with h1 | h1
        · rw [h1]; exact hq
        · exact h1.2
      · intro e' he' hq'
        rcases List.mem_cons.mp he' with rfl | hmem
        · exact hlle
        · exact hlall e' hmem hq'
    · have hex' : ∃ e' ∈ es, qualifying e' := by
        obtain ⟨e', he', hq'⟩ := hex
        rcases List.mem_cons.mp he' with rfl | hmem
        · exact absurd hq' hq
        · exact ⟨e', hmem, hq'⟩
      rw [List.foldl_cons, gmStep_skip _ e hq]
      obtain ⟨f', l', heq, m1, q1, a1, m2, q2, a2⟩ := ih hex'
      refine ⟨f', l', heq, List.mem_cons_of_mem e m1, q1, ?_, List.mem_cons_of_mem e m2, q2, ?_⟩
      · intro e' he' hq'
        rcases List.mem_cons.mp he' with rfl | hmem
        · exact absurd hq' hq
        · exact a1 e' hmem hq'
      · intro e' he' hq'
        rcases List.mem_cons.mp he' with rfl | hmem
        · exact absurd hq' hq
        · exact a2 e' hmem hq'

/-! ## C9 -/

/-- C9: `gather_metadata` fails exactly when no non-maintenance event with a
present usage-hours value exists; on success, `start_date` is the earliest
start and `end_date` the latest end among the qualifying events only, while
`num_events` counts every event, maintenance and hourless ones included. -/
theorem C9_gather_metadata_spec (events : List Event) :
    ((∀ e ∈ events, ¬ qualifying e) → gather_metadata events = none) ∧
    ((∃ e ∈ events, qualifying e) → (gather_metadata events).isSome = true) ∧
    (∀ m, gather_metadata events = some m →
      m.num_events = events.length ∧
      (∃ e ∈ events, qualifying e ∧ e.start = m.start_date) ∧
      (∀ e ∈ events, qualifying e → m.start_date ≤ e.start) ∧
      (∃ e ∈ events, qualifying e ∧ e.«end» = m.end_date) ∧
      (∀ e ∈ events, qualifying e → e.«end» ≤ m.end_date)) := by
  refine ⟨?_, ?_, ?_⟩
  · intro h
    unfold gather_metadata
    rw [gmLoop_none events h]
  · intro hex
    obtain ⟨f', l', heq, -, -, -, -, -, -⟩ := gmLoop_char events hex
    unfold gather_metadata
    rw [heq]
    rfl
  · intro m hm
    by_cases hex : ∃ e ∈ events, qualifying e
    · obtain ⟨fm, lm, heq, m1, q1, a1, m2, q2, a2⟩ := gmLoop_char events hex
      unfold gather_metadata at hm
      rw [heq] at hm
      have hmeq : (⟨fm.start, lm.«end», ((lm.«end» : Int) - (fm.start : Int)).fdiv 86400,
          events.length⟩ : Metadata) = m := Option.some.inj hm
      subst hmeq
      exact ⟨rfl, ⟨fm, m1, q1, rfl⟩, a1, ⟨lm, m2, q2, rfl⟩, a2⟩
    · have hnone := gmLoop_none events (by push_neg at hex; exact hex)
      unfold gather_metadata at hm
      rw [hnone] at hm
      exact Option.noConfusion hm

/-- Event list of the C9 witness: two qualifying reservations and one
maintenance event. -/
def evsC9 : List Event :=
  [⟨"A", "X", 100, 200, "Reservation", "1.2"⟩,
   ⟨"B", "Y", 50, 300, "Reservation", "2.0"⟩,
   ⟨"C", "Z", 10, 900, "Maintenance", "3.0"⟩]

/-- Witness for C9: on `evsC9` the metadata exists, counts all three events,
and its start date (the qualifying minimum, 50) bounds a qualifying start. -/
theorem C9_witness :
    (gather_metadata evsC9).isSome = true ∧
    (⟨50, 300, 0, 3⟩ : Metadata).num_events = evsC9.length ∧
    (⟨50, 300, 0, 3⟩ : Metadata).start_date ≤ 100 := by
  refine ⟨(C9_gather_metadata_spec evsC9).2.1 ⟨⟨"B", "Y", 50, 300, "Reservation", "2.0"⟩, by decide, by decide⟩, ?_, ?_⟩
  · exact ((C9_gather_metadata_spec evsC9).2.2 ⟨50, 300, 0, 3⟩ (by decide)).1
  · exact ((C9_gather_metadata_spec evsC9).2.2 ⟨50, 300, 0, 3⟩ (by decide)).2.2.1
      ⟨"A", "X", 100, 200, "Reservation", "1.2"⟩ (by decide) (by decide)

/-- Lookup after a dict write: the written key reads back the value, others
are unchanged. -/
theorem lookupA_setA (l : List (Nat × Int)) (k : Nat) (v : Int) (j : Nat) :
    lookupA (setA l k v) j = if k = j then some v else lookupA l j := by
  induction l with
  | nil => simp [setA, lookupA]
  | cons p rest ih =>
    obtain ⟨k', v'⟩ := p
    by_cases h : k' = k
    · subst h
      by_cases h2 : k' = j <;> simp [setA, lookupA, h2]
    · by_cases h2 : k' = j
      · have hkj : j ≠ k := fun hh => h (h2.trans hh)
        simp [setA, lookupA, h, h2, hkj, hkj.symm]
      · simp [setA, lookupA, h, h2, ih]

/-- The gap-initialization loop writes only at days below `x + n`, so a
lookup at or beyond that bound is unchanged. -/
theorem gapFillAux_lookup (airports : List String) (app : Int) :
    ∀ (n x : Nat) (st : String → List (Nat × Int)) (a : String) (M : Nat),
      x + n ≤ M →
      lookupA (gapFillAux airports app n x st a) M = lookupA (st a) M := by
  intro n
  induction n with
  | zero => intro x st a M _; rfl
  | succ n ih =>
    intro x st a M h
    unfold gapFillAux
    rw [ih (x + 1) _ a M (by omega)]
    by_cases hm : a ∈ airports
    · show lookupA (if a ∈ airports then setA (st a) x app else st a) M = lookupA (st a) M
      rw [if_pos hm, lookupA_setA, if_neg (by omega)]
    · show lookupA (if a ∈ airports then setA (st a) x app else st a) M = lookupA (st a) M
      rw [if_neg hm]

/-- After any event is processed, the cursor sits on that event's date. -/
theorem availStep_current (app : Int) (airports : List String) (s : AvailState) (e : Event) :
    (availStep app airports s e).current = some (e.start / 86400) := by
  unfold availStep
  by_cases hc : s.current = some (e.start / 86400) <;>
    by_cases hm : e.aircraft ∈ s.seen <;>
      simp [hc, hm]

/-- Processing one event writes no storage entry at any day at or beyond the
event's date, provided the cursor is no later than the event. -/
theorem availStep_storage_none (app : Int) (airports : List String) (s : AvailState) (e : Event)
    (a : String) (M : Nat)
    (hdM : e.start / 86400 ≤ M)
    (hcur : ∀ c, s.current = some c → c ≤ e.start / 86400)
    (hnone : lookupA (s.storage a) M = none) :
    lookupA ((availStep app airports s e).storage a) M = none := by
  by_cases hc : s.current = some (e.start / 86400)
  · have hstor : (availStep app airports s e).storage = s.storage := by
      unfold availStep
      by_cases hm : e.aircraft ∈ s.seen <;> simp [hc, hm]
    rw [hstor]
    exact hnone
  · rcases hcc : s.current with _ | cd
    · have hstor : (availStep app airports s e).storage = s.storage := by
        unfold availStep
        rw [hcc] at hc ⊢
        by_cases hm : e.aircraft ∈ ([] : List String) <;> simp [hc, hm]
      rw [hstor]
      exact hnone
    · have hcd : cd ≤ e.start / 86400 := hcur cd hcc
      have hne : cd ≠ e.start / 86400 := fun hh => hc (by rw [hcc, hh])
      have hcdlt : cd < e.start / 86400 := lt_of_le_of_ne hcd hne
      have hstor : (availStep app airports s e).storage =
          (if ((e.start / 86400 : Nat) : Int) - (cd : Int) > 1 then
            gapFill airports app cd (e.start / 86400)
              (fun a => if a ∈ airports then setA (s.storage a) cd (app - (s.usage a : Int)) else s.storage a)
          else
            (fun a => if a ∈ airports then setA (s.storage a) cd (app - (s.usage a : Int)) else s.storage a)) := by
        unfold availStep
        rw [hcc] at hc ⊢
        simp [hc]
      rw [hstor]
      have hst1 : lookupA ((fun a => if a ∈ airports then setA (s.storage a) cd (app - (s.usage a : Int)) else s.storage a) a) M = none := by
        show lookupA (if a ∈ airports then setA (s.storage a) cd (app - (s.usage a : Int)) else s.storage a) M = none
        by_cases hmem : a ∈ airports
        · rw [if_pos hmem, lookupA_setA, if_neg (by omega)]
          exact hnone
        · rw [if_neg hmem]
          exact hnone
      by_cases hgap : ((e.start / 86400 : Nat) : Int) - (cd : Int) > 1
      · rw [if_pos hgap]
        unfold gapFill
        rw [gapFillAux_lookup airports app (e.start / 86400 - cd) cd _ a M (by omega)]
        exact hst1
      · rw [if_neg hgap]
        exact hst1

/-- Sweep invariant: over events sorted by start and all dated at most `M`,
with the cursor no later than every remaining event, no storage entry ever
appears at day `M`. -/
theorem availSweep_inv (app : Int) (airports : List String) :
    ∀ (events : List Event) (s : AvailState) (M : Nat),
      List.Pairwise (fun e1 e2 => e1.start ≤ e2.start) events →
      (∀ e ∈ events, e.start / 86400 ≤ M) →
      (∀ c, s.current = some c → ∀ e ∈ events, c ≤ e.start / 86400) →
      (∀ a, lookupA (s.storage a) M = none) →
      ∀ a, lookupA ((events.foldl (availStep app airports) s).storage a) M = none := by
  intro events
  induction events with
  | nil => intro s M _ _ _ hnone a; exact hnone a
  | cons e es ih =>
    intro s M hpw hbound hcur hnone a
    obtain ⟨hhead, htail⟩ := List.pairwise_cons.mp hpw
    rw [List.foldl_cons]
    apply ih (availStep app airports s e) M htail
    · intro e' he'
      exact hbound e' (List.mem_cons_of_mem e he')
    · intro c hc e' he'
      rw [availStep_current] at hc
      have hcd : c = e.start / 86400 := (Option.some.inj hc).symm
      rw [hcd]
      exact Nat.div_le_div_right (hhead e' he')
    · intro a'
      exact availStep_storage_none app airports s e a' M (hbound e (List.mem_cons_self e es))
        (fun c hc => hcur c hc e (List.mem_cons_self e es)) (hnone a')

/-- In a list sorted by start time, every start is at most the last one. -/
theorem start_le_getLast : ∀ (l : List Event) (h : l ≠ []),
    l.Pairwise (fun e1 e2 => e1.start ≤ e2.start) → ∀ e ∈ l, e.start ≤ (l.getLast h).start := by
  intro l
  induction l with
  | nil => intro h; exact absurd rfl h
  | cons x xs ih =>
    intro h hpw e he
    obtain ⟨hhead, htail⟩ := List.pairwise_cons.mp hpw
    rcases List.mem_cons.mp he with rfl | hmem
    · rcases xs with _ | ⟨y, ys⟩
      · exact le_refl _
      · rw [List.getLast_cons (List.cons_ne_nil y ys)]
        exact hhead _ (List.getLast_mem (List.cons_ne_nil y ys))
    · have hxs : xs ≠ [] := List.ne_nil_of_mem hmem
      rw [List.getLast_cons hxs]
      exact ih hxs htail e hmem

/-! ## C3 -/

/-- C3: on a nonempty event list sorted ascending by start time, the sweep
never records a per-(airport, date) availability entry at the final event's
start date — the last calendar day is never finalized, so it is absent from
the grouped weekday means. -/
theorem C3_last_day_never_finalized (events : List Event) (hne : events ≠ [])
    (hs : List.Pairwise (fun e1 e2 => e1.start ≤ e2.start) events)
    (app : Int) (airports : List String) (a : String) :
    lookupA ((availSweep app airports events).storage a) ((events.getLast hne).start / 86400) = none := by
  unfold availSweep
  apply availSweep_inv app airports events availInit ((events.getLast hne).start / 86400) hs
  · intro e he
    exact Nat.div_le_div_right (start_le_getLast events hne hs e he)
  · intro c hc
    exact absurd hc (by simp [availInit])
  · intro a'
    rfl

/-- Events of the C3 witness: two reservations on consecutive days. -/
def c3w1 : Event := ⟨"A", "X", 100, 200, "Reservation", "1.0"⟩

/-- Second event of the C3 witness, one day after the first. -/
def c3w2 : Event := ⟨"A", "X", 86400 + 100, 86400 + 200, "Reservation", "1.0"⟩

/-- Witness for C3: the final event's day (day 1) has no recorded entry even
though day 0 was finalized. -/
theorem C3_witness :
    lookupA ((availSweep 1 ["X"] [c3w1, c3w2]).storage "X")
      (([c3w1, c3w2].getLast (by simp)).start / 86400) = none :=
  C3_last_day_never_finalized [c3w1, c3w2] (by simp)
    (by simp [List.pairwise_cons, c3w1, c3w2]) 1 ["X"] "X"

/-! ## C2 -/

/-- First event of the C2 failing input: aircraft A used at X on day 0, so
day 0 finalizes as `available = 1 - 1 = 0`. -/
def c2e1 : Event := ⟨"A", "X", 0, 100, "Reservation", "1.0"⟩

/-- Second event of the C2 failing input: three days later, triggering the
gap-initialization loop over days 0, 1 and 2. -/
def c2e2 : Event := ⟨"A", "X", 3 * 86400, 3 * 86400 + 100, "Reservation", "1.0"⟩

/-- Evaluation of the code at the C2 failing input: with one aircraft at one
airport, day 0 is finalized as `1 - 1 = 0`, but because the
gap-initialization loop starts at the finalized day itself rather than the
day after it, the recorded value for day 0 ends up overwritten with
`aircraft_per_airport = 1` instead of remaining `0`. -/
theorem C2_overwrite_eval :
    lookupA ((availSweep 1 ["X"] [c2e1, c2e2]).storage "X") 0 = some 1 ∧
    lookupA ((availSweep 1 ["X"] [c2e1, c2e2]).storage "X") 0 ≠ some ((1 : Int) - 1) := by
  constructor
  · rfl
  · intro h
    have h1 : some (1 : Int) = some ((1 : Int) - 1) := by
      rw [show lookupA ((availSweep 1 ["X"] [c2e1, c2e2]).storage "X") 0 = some 1 from rfl] at h
      exact h
    exact absurd (Option.some.inj h1) (by decide)

/-! ## C1 -/

/-- First event of the C1 counterexample: aircraft A at airport X on day 0. -/
def c1e1 : Event := ⟨"A", "X", 36000, 39600, "Reservation", "1.5"⟩

/-- Second event of the C1 counterexample: the same aircraft A at the other
airport Y, still on day 0. -/
def c1e2 : Event := ⟨"A", "Y", 50000, 51000, "Reservation", "1.0"⟩

/-- Third event of the C1 counterexample: a day-1 event that finalizes day 0. -/
def c1e3 : Event := ⟨"B", "X", 86500, 86600, "Reservation", "1.0"⟩

/-- Counterexample to C1: aircraft A has day-0 events at both X and Y, so
one distinct aircraft was seen at Y that day, yet Y's finalized availability
is `1`, not `1 - 1 = 0` — the sweep keeps a single per-day `aircraft_seen`
list, so A's second sighting at Y increments nothing. -/
theorem C1_counterexample :
    distinctAircraftSeenAt [c1e1, c1e2, c1e3] "Y" 0 = 1 ∧
    lookupA ((availSweep 1 ["X", "Y"] [c1e1, c1e2, c1e3]).storage "Y") 0 = some 1 ∧
    lookupA ((availSweep 1 ["X", "Y"] [c1e1, c1e2, c1e3]).storage "Y") 0
      ≠ some ((1 : Int) - (distinctAircraftSeenAt [c1e1, c1e2, c1e3] "Y" 0 : Int)) := by
  refine ⟨rfl, rfl, by decide⟩

/-- C1 as amended: within a day, an aircraft is counted once per day
globally, not once per airport: an event whose aircraft was already seen
that day changes nothing at all (whatever its airport), and an event by an
unseen aircraft marks it seen and increments only that event's airport. -/
theorem C1_amended (app : Int) (airports : List String) (s : AvailState) (e : Event)
    (hcur : s.current = some (e.start / 86400)) :
    (e.aircraft ∈ s.seen → availStep app airports s e = s) ∧
    (e.aircraft ∉ s.seen →
      (availStep app airports s e).seen = s.seen ++ [e.aircraft] ∧
      (availStep app airports s e).usage e.location = s.usage e.location + 1 ∧
      (∀ loc, loc ≠ e.location → (availStep app airports s e).usage loc = s.usage loc) ∧
      (availStep app airports s e).storage = s.storage ∧
      (availStep app airports s e).current = s.current) := by
  constructor
  · intro hseen
    unfold availStep
    simp [hcur, hseen]
  · intro hunseen
    have hstep : availStep app airports s e =
        { s with seen := s.seen ++ [e.aircraft],
                 usage := fun a => if a = e.location then s.usage a + 1 else s.usage a } := by
      unfold availStep
      simp [hcur, hunseen]
    rw [hstep]
    refine ⟨rfl, ?_, ?_, rfl, rfl⟩
    · simp
    · intro loc hloc
      simp [hloc]

/-- Witness for C1's amended theorem: after aircraft A is seen at X on day
0, its second day-0 event at Y leaves the state untouched. -/
theorem C1_witness :
    availStep 1 ["X", "Y"] (availSweep 1 ["X", "Y"] [c1e1]) c1e2
      = availSweep 1 ["X", "Y"] [c1e1] :=
  (C1_amended 1 ["X", "Y"] (availSweep 1 ["X", "Y"] [c1e1]) c1e2 (by decide)).1 (by decide)

/-- Witness for C10: a concrete call with one aircraft and no airports
fails with the division-by-zero error. -/
theorem C10_witness :
    aircraft_available_by_airport_and_weekday [] ["a"] [] = .error .divisionByZero :=
  ((C10_empty_airports_division_by_zero).2.2 [] ["a"]).1
